import Mathlib

/-!
Shallow embedding of the leveldb write-ahead-log writer
(`db/log_writer.cc`): block framing, fragmentation, physical-record
emission and checksum discipline, together with proofs of the spec's
claims about it.

The checksum primitive (`util/crc32c.h`) and the sequential file sink
(`leveldb/env.h`) are external collaborators of the component; they are
modelled abstractly: the checksum as a structure of functions
(`value`/`extend`/`mask`), the sink as a byte list plus a schedule of
statuses for successive sink calls.  The framing constants and type
codes come from `db/log_format.h`, which is not part of the sources;
their values are those the spec fixes (`BLOCK_SIZE = 32768`,
`HEADER_SIZE = 7`, type codes 0..4).
-/

namespace LogWriter

/-- Result of a sink call.  `leveldb::Status` is modelled as either
success or an error carrying an abstract code; the writer only ever
tests `ok()` and passes statuses through unchanged. -/
inductive Status where
  | ok : Status
  | ioError (code : Nat) : Status
deriving DecidableEq, Repr

/-- Embedding of `Status::ok()`. -/
def Status.isOk : Status → Bool
  | .ok => true
  | .ioError _ => false

/-- The sequential append-only file sink (`WritableFile`).  `contents`
is the byte stream written so far; `schedule` prescribes the results of
the successive sink calls (`Append`/`Flush`), an exhausted schedule
meaning every further call succeeds.  A failed `Append` writes
nothing. -/
structure WritableFile where
  contents : List Nat
  schedule : List Status
deriving DecidableEq, Repr

/-- Embedding of `WritableFile::Append(Slice(bytes))`. -/
def fileAppend (f : WritableFile) (bytes : List Nat) : Status × WritableFile :=
  match f.schedule with
  | [] => (Status.ok, { f with contents := f.contents ++ bytes })
  | r :: rest =>
      (r, { contents := if r.isOk then f.contents ++ bytes else f.contents,
            schedule := rest })

/-- Embedding of `WritableFile::Flush()`. -/
def fileFlush (f : WritableFile) : Status × WritableFile :=
  match f.schedule with
  | [] => (Status.ok, f)
  | r :: rest => (r, { f with schedule := rest })

/-- Modelled from the spec: `kBlockSize` of `db/log_format.h` (not under
the sources); the spec fixes `BLOCK_SIZE = 32768`. -/
def kBlockSize : Nat := 32768

/-- Modelled from the spec: `kHeaderSize` of `db/log_format.h`
(checksum 4 + length 2 + type 1). -/
def kHeaderSize : Nat := 7

/-- Modelled from the spec: type code 0, reserved `Zero` type. -/
def kZeroType : Nat := 0

/-- Modelled from the spec: type code 1, `Full`. -/
def kFullType : Nat := 1

/-- Modelled from the spec: type code 2, `First`. -/
def kFirstType : Nat := 2

/-- Modelled from the spec: type code 3, `Middle`. -/
def kMiddleType : Nat := 3

/-- Modelled from the spec: type code 4, `Last`. -/
def kLastType : Nat := 4

/-- Modelled from the spec: `kMaxRecordType = kLastType`. -/
def kMaxRecordType : Nat := kLastType

/-- The crc32c primitive of `util/crc32c.h`, an external collaborator,
modelled abstractly: `value` checksums a byte range from scratch,
`extend` continues a checksum over further bytes, `mask` is the
storage-adjustment transform. -/
structure Crc where
  value : List Nat → Nat
  extend : Nat → List Nat → Nat
  mask : Nat → Nat

/-- Embedding of `InitTypeCrc` (`log_writer.cc` lines 16-21): the table of the
checksums of each single type byte `i` for `i = 0..kMaxRecordType`
(the `static_cast<char>(i)` is the identity in this range). -/
def InitTypeCrc (c : Crc) : List Nat :=
  (List.range (kMaxRecordType + 1)).map fun i => c.value [i]

/-- State of `log::Writer`: the borrowed sink, the in-block cursor
`block_offset_`, and the `type_crc_` table. -/
structure Writer where
  dest : WritableFile
  block_offset : Nat
  type_crc : List Nat
deriving DecidableEq, Repr

/-- Embedding of `Writer::Writer(dest)` (fresh log file, cursor 0). -/
def Writer.mkNew (c : Crc) (dest : WritableFile) : Writer :=
  ⟨dest, 0, InitTypeCrc c⟩

/-- Embedding of `Writer::Writer(dest, dest_length)` (resuming, cursor
`dest_length % kBlockSize`). -/
def Writer.mkResume (c : Crc) (dest : WritableFile) (dest_length : Nat) : Writer :=
  ⟨dest, dest_length % kBlockSize, InitTypeCrc c⟩

/-- Embedding of `EncodeFixed32(buf, v)` of `util/coding.h`: write `v` into the first
four bytes of `buf`, little-endian. -/
def EncodeFixed32 (buf : List Nat) (v : Nat) : List Nat :=
  (((buf.set 0 (v % 256)).set 1 (v / 256 % 256)).set 2
      (v / 65536 % 256)).set 3 (v / 16777216 % 256)

/-- The 7-byte header built by `EmitPhysicalRecord` (lines 115-132):
`buf[4] = length & 0xff`, `buf[5] = length >> 8` (truncated to a byte by
the `char` cast), `buf[6] = t`, then the masked extended checksum is
encoded into `buf[0..3]` little-endian.  `buf` starts as an
uninitialised 7-byte array, modelled as zeros. -/
def recordHeader (c : Crc) (type_crc : List Nat) (t : Nat) (payload : List Nat) :
    List Nat :=
  let buf := List.replicate kHeaderSize 0
  let buf := (buf.set 4 (payload.length % 256)).set 5 (payload.length / 256 % 256)
  let buf := buf.set 6 (t % 256)
  let crc := c.mask (c.extend (type_crc.getD t 0) payload)
  EncodeFixed32 buf crc

/-- Embedding of `Writer::EmitPhysicalRecord(t, ptr, length)` (lines 105-149):
build the header, append it, on success append the payload, on success
flush; in every case advance `block_offset_` by
`kHeaderSize + length`, and return the status of the first failing
sink call (or success). -/
def EmitPhysicalRecord (c : Crc) (w : Writer) (t : Nat) (payload : List Nat) :
    Status × Writer :=
  let buf := recordHeader c w.type_crc t payload
  let a1 := fileAppend w.dest buf
  let sf :=
    if a1.1.isOk then
      let a2 := fileAppend a1.2 payload
      if a2.1.isOk then fileFlush a2.2 else a2
    else a1
  (sf.1, ⟨sf.2, w.block_offset + kHeaderSize + payload.length, w.type_crc⟩)

/-- Ghost trace of the writer's externally visible actions: `pad` is a
zero-filled block trailer (recording the cursor before the switch and
the bytes handed to `Append`), `record` is one physical-record emission
(recording the cursor and the sink length at the moment the header is
written, the type tag, the fragment payload, and the emission's
status). -/
inductive Event where
  | pad (offsetBefore : Nat) (bytes : List Nat) : Event
  | record (blockOffset streamOffset : Nat) (rtype : Nat) (payload : List Nat)
      (st : Status) : Event
deriving DecidableEq, Repr

/-- Lines 50-67 of `AddRecord`: if fewer than `kHeaderSize` bytes are
left in the block, append the zero trailer (the first `leftover` bytes
of the 6-zero literal; the trailer `Append`'s status is discarded, as
in the source) and reset the cursor to 0.  `leftover` is an `int` in
the source; for cursors at most `kBlockSize` the `Nat` truncated
subtraction agrees with it, and for larger cursors both give "switch
with no padding". -/
def afterTrailer (w : Writer) : Writer × List Event :=
  let leftover := kBlockSize - w.block_offset
  if leftover < kHeaderSize then
    if 0 < leftover then
      let f1 := (fileAppend w.dest ((List.replicate 6 0).take leftover)).2
      ({ w with dest := f1, block_offset := 0 },
       [Event.pad w.block_offset ((List.replicate 6 0).take leftover)])
    else ({ w with block_offset := 0 }, [])
  else (w, [])

/-- Lines 79-89 of `AddRecord`: the record type from the
`begin`/`end` flags. -/
def recTypeOf (b e : Bool) : Nat :=
  if b && e then kFullType
  else if b then kFirstType
  else if e then kLastType
  else kMiddleType

/-- One iteration of the do/while fragmentation loop of
`Writer::AddRecord` (lines 48-99): block switch if needed,
`fragment_length = min(left, avail)`, record type from the
`begin`/`end` flags, emit one physical record.  Returns the emission
status, the writer, the events of the iteration, and the not-yet-written
payload suffix (`ptr + fragment_length` / `left -= fragment_length`). -/
def addStep (c : Crc) (w : Writer) (ptr : List Nat) (b : Bool) :
    Status × Writer × List Event × List Nat :=
  let wp := afterTrailer w
  let fragment_length := min ptr.length (kBlockSize - wp.1.block_offset - kHeaderSize)
  let t := recTypeOf b (decide (ptr.length = fragment_length))
  let sw := EmitPhysicalRecord c wp.1 t (ptr.take fragment_length)
  (sw.1, sw.2,
   wp.2 ++ [Event.record wp.1.block_offset wp.1.dest.contents.length t
      (ptr.take fragment_length) sw.1],
   ptr.drop fragment_length)

/-- The do/while fragmentation loop of `Writer::AddRecord`
(lines 48-101), with `ptr` the not-yet-emitted suffix of the payload
and `b` the `begin` flag: iterate `addStep` while the status is ok and
bytes remain (`while (s.ok() && left > 0)`). -/
def addLoop (c : Crc) (w : Writer) (ptr : List Nat) (b : Bool) :
    Status × Writer × List Event :=
  let st := addStep c w ptr b
  if h : st.1.isOk ∧ 0 < st.2.2.2.length then
    let r := addLoop c st.2.1 st.2.2.2 false
    (r.1, r.2.1, st.2.2.1 ++ r.2.2)
  else (st.1, st.2.1, st.2.2.1)
termination_by 2 * ptr.length + (if w.block_offset = kBlockSize - kHeaderSize then 1 else 0)
decreasing_by
  have hrest : (addStep c w ptr b).2.2.2.length =
      ptr.length - min ptr.length
        (kBlockSize - (afterTrailer w).1.block_offset - kHeaderSize) := by
    simp [addStep]
  have hofs : (addStep c w ptr b).2.1.block_offset =
      (afterTrailer w).1.block_offset + kHeaderSize +
        min ptr.length (kBlockSize - (afterTrailer w).1.block_offset - kHeaderSize) := by
    have hr : (addStep c w ptr b).2.1.block_offset =
        (afterTrailer w).1.block_offset + kHeaderSize +
          (ptr.take (min ptr.length
            (kBlockSize - (afterTrailer w).1.block_offset - kHeaderSize))).length := rfl
    rw [hr, List.length_take]
    omega
  have hat : (afterTrailer w).1.block_offset =
      if kBlockSize - w.block_offset < kHeaderSize then 0 else w.block_offset := by
    unfold afterTrailer
    by_cases h1 : kBlockSize - w.block_offset < kHeaderSize
    · by_cases h2 : 0 < kBlockSize - w.block_offset <;> simp [h1, h2]
    · simp [h1]
  obtain ⟨-, hlt⟩ := h
  rw [hrest] at hlt ⊢
  rw [hofs, hat] at *
  by_cases h1 : kBlockSize - w.block_offset < kHeaderSize <;>
    simp only [h1, if_true, if_false, kBlockSize, kHeaderSize] at * <;>
    split_ifs at * <;> omega

/-- Embedding of `Writer::AddRecord(slice)` (lines 34-103). -/
def AddRecord (c : Crc) (w : Writer) (slice : List Nat) :
    Status × Writer × List Event :=
  addLoop c w slice true

/-- A sequence of `AddRecord` calls on the same writer, with the
concatenated event trace. -/
def runAll (c : Crc) (w : Writer) (ps : List (List Nat)) : Writer × List Event :=
  match ps with
  | [] => (w, [])
  | p :: rest =>
      let r := AddRecord c w p
      let r2 := runAll c r.2.1 rest
      (r2.1, r.2.2 ++ r2.2)

/-- The type tags of the physical records of a trace, in emission
order. -/
def recTypes (evs : List Event) : List Nat :=
  evs.filterMap fun
    | .record _ _ t _ _ => some t
    | _ => none

/-- The payloads of the physical records of a trace, in emission
order. -/
def recPayloads (evs : List Event) : List (List Nat) :=
  evs.filterMap fun
    | .record _ _ _ p _ => some p
    | _ => none

/-- The trailer invariant over a trace: every header is emitted with at
least `kHeaderSize` bytes left in its block, and every trailer consists
of exactly the leftover bytes, all zero, with `0 < leftover <
kHeaderSize`, and is immediately followed by a record emitted at cursor
0. -/
def trailerInv : List Event → Bool
  | [] => true
  | .pad off bs :: rest =>
      decide (bs = List.replicate (kBlockSize - off) 0) &&
      decide (0 < kBlockSize - off) &&
      decide (kBlockSize - off < kHeaderSize) &&
      (match rest with
       | .record bo _ _ _ _ :: _ => decide (bo = 0)
       | _ => false) &&
      trailerInv rest
  | .record bo _ _ _ _ :: rest =>
      decide (bo + kHeaderSize ≤ kBlockSize) && trailerInv rest

/-- The safety conditions behind the source's assertions, per event:
every emitted fragment fits in the two-byte length field and inside its
block, and every trailer pad has `1 ≤ leftover ≤ 6` (so the 6-byte
zero literal is never read out of bounds). -/
def eventsSafe (evs : List Event) : Bool :=
  evs.all fun
    | .record bo _ _ p _ =>
        decide (p.length ≤ 0xffff) &&
        decide (bo + kHeaderSize + p.length ≤ kBlockSize)
    | .pad off _ =>
        decide (1 ≤ kBlockSize - off) && decide (kBlockSize - off ≤ 6)

/-- A concrete checksum instance used to instantiate witnesses; the
claims hold for every `Crc`. -/
def demoCrc : Crc :=
  ⟨fun l => l.foldl (fun a b => a * 31 + b + 1) 0,
   fun a l => l.foldl (fun x b => x * 31 + b + 1) a,
   fun x => x * 2 + 5⟩

/-- An empty sink on which every call succeeds. -/
def emptyFile : WritableFile := ⟨[], []⟩

/-- An empty sink whose first call fails with an abstract error code;
used to instantiate witnesses of the failure-path claims. -/
def failFile : WritableFile := ⟨[], [Status.ioError 5]⟩

/-! ### Helper lemmas -/

theorem afterTrailer_block_offset (w : Writer) :
    (afterTrailer w).1.block_offset =
      if kBlockSize - w.block_offset < kHeaderSize then 0 else w.block_offset := by
  unfold afterTrailer
  by_cases h1 : kBlockSize - w.block_offset < kHeaderSize
  · by_cases h2 : 0 < kBlockSize - w.block_offset <;> simp [h1, h2]
  · simp [h1]

theorem afterTrailer_of_room (w : Writer)
    (h : kHeaderSize ≤ kBlockSize - w.block_offset) : afterTrailer w = (w, []) := by
  unfold afterTrailer
  simp [Nat.not_lt.mpr h]

theorem afterTrailer_type_crc (w : Writer) :
    (afterTrailer w).1.type_crc = w.type_crc := by
  unfold afterTrailer
  by_cases h1 : kBlockSize - w.block_offset < kHeaderSize
  · by_cases h2 : 0 < kBlockSize - w.block_offset <;> simp [h1, h2]
  · simp [h1]

theorem afterTrailer_schedule_nil (w : Writer) (h : w.dest.schedule = []) :
    (afterTrailer w).1.dest.schedule = [] := by
  unfold afterTrailer
  by_cases h1 : kBlockSize - w.block_offset < kHeaderSize
  · by_cases h2 : 0 < kBlockSize - w.block_offset <;> simp [h1, h2, fileAppend, h]
  · simp [h1, h]

theorem emit_block_offset (c : Crc) (w : Writer) (t : Nat) (p : List Nat) :
    (EmitPhysicalRecord c w t p).2.block_offset =
      w.block_offset + kHeaderSize + p.length := rfl

theorem emit_type_crc (c : Crc) (w : Writer) (t : Nat) (p : List Nat) :
    (EmitPhysicalRecord c w t p).2.type_crc = w.type_crc := rfl

theorem recordHeader_length (c : Crc) (tab : List Nat) (t : Nat) (p : List Nat) :
    (recordHeader c tab t p).length = kHeaderSize := by
  simp [recordHeader, EncodeFixed32, kHeaderSize]

theorem recordHeader_eq (c : Crc) (tab : List Nat) (t : Nat) (p : List Nat) :
    recordHeader c tab t p =
      [c.mask (c.extend (tab.getD t 0) p) % 256,
       c.mask (c.extend (tab.getD t 0) p) / 256 % 256,
       c.mask (c.extend (tab.getD t 0) p) / 65536 % 256,
       c.mask (c.extend (tab.getD t 0) p) / 16777216 % 256,
       p.length % 256, p.length / 256 % 256, t % 256] := rfl

theorem initTypeCrc_getD (c : Crc) (t : Nat) (ht : t ≤ kMaxRecordType) :
    (InitTypeCrc c).getD t 0 = c.value [t] := by
  have h4 : t ≤ 4 := ht
  interval_cases t <;> rfl

theorem emit_of_schedule_nil (c : Crc) (w : Writer) (t : Nat) (p : List Nat)
    (h : w.dest.schedule = []) :
    (EmitPhysicalRecord c w t p).1 = Status.ok ∧
    (EmitPhysicalRecord c w t p).2.dest.schedule = [] ∧
    (EmitPhysicalRecord c w t p).2.dest.contents =
      w.dest.contents ++ recordHeader c w.type_crc t p ++ p := by
  simp [EmitPhysicalRecord, fileAppend, fileFlush, h, Status.isOk]


theorem afterTrailer_case_pad (w : Writer)
    (h1 : kBlockSize - w.block_offset < kHeaderSize)
    (h2 : 0 < kBlockSize - w.block_offset) :
    afterTrailer w =
      ({ w with
          dest := (fileAppend w.dest
            ((List.replicate 6 0).take (kBlockSize - w.block_offset))).2,
          block_offset := 0 },
       [Event.pad w.block_offset
          ((List.replicate 6 0).take (kBlockSize - w.block_offset))]) := by
  unfold afterTrailer
  simp [h1, h2]

theorem afterTrailer_case_reset (w : Writer)
    (h1 : kBlockSize - w.block_offset < kHeaderSize)
    (h2 : ¬ 0 < kBlockSize - w.block_offset) :
    afterTrailer w = ({ w with block_offset := 0 }, []) := by
  unfold afterTrailer
  simp [h1, h2]

theorem afterTrailer_case_none (w : Writer)
    (h1 : ¬ kBlockSize - w.block_offset < kHeaderSize) :
    afterTrailer w = (w, []) := by
  unfold afterTrailer
  simp [h1]

theorem trailerInv_nil : trailerInv [] = true := rfl

theorem trailerInv_record_cons (bo so t : Nat) (p : List Nat) (s : Status)
    (rest : List Event) :
    trailerInv (Event.record bo so t p s :: rest) =
      (decide (bo + kHeaderSize ≤ kBlockSize) && trailerInv rest) := rfl

theorem trailerInv_pad_cons_record (off : Nat) (bs : List Nat) (bo so t : Nat)
    (p : List Nat) (s : Status) (rest : List Event) :
    trailerInv (Event.pad off bs :: Event.record bo so t p s :: rest) =
      (decide (bs = List.replicate (kBlockSize - off) 0) &&
       decide (0 < kBlockSize - off) &&
       decide (kBlockSize - off < kHeaderSize) &&
       decide (bo = 0) &&
       trailerInv (Event.record bo so t p s :: rest)) := rfl

theorem addStep_safety (c : Crc) (w : Writer) (ptr : List Nat) (b : Bool) :
    (addStep c w ptr b).2.1.block_offset ≤ kBlockSize ∧
    eventsSafe (addStep c w ptr b).2.2.1 = true ∧
    ∀ tail, trailerInv tail = true →
      trailerInv ((addStep c w ptr b).2.2.1 ++ tail) = true := by
  by_cases h1 : kBlockSize - w.block_offset < kHeaderSize
  · by_cases h2 : 0 < kBlockSize - w.block_offset
    · simp only [addStep, afterTrailer_case_pad w h1 h2, emit_block_offset]
      refine ⟨?_, ?_, ?_⟩
      · simp only [List.length_take]
        simp only [kBlockSize, kHeaderSize] at *
        omega
      · simp [eventsSafe, List.length_take]
        simp only [kBlockSize, kHeaderSize] at *
        omega
      · intro tail htail
        simp only [List.cons_append, List.singleton_append, List.append_assoc,
          List.nil_append]
        rw [trailerInv_pad_cons_record, trailerInv_record_cons]
        have hmin : min (kBlockSize - w.block_offset) 6 = kBlockSize - w.block_offset := by
          simp only [kBlockSize, kHeaderSize] at *
          omega
        simp only [Bool.and_eq_true, decide_eq_true_eq]
        refine ⟨⟨⟨⟨?_, h2⟩, h1⟩, trivial⟩, ?_, htail⟩
        · rw [List.take_replicate, hmin]
        · simp only [kBlockSize, kHeaderSize]
          omega
    · simp only [addStep, afterTrailer_case_reset w h1 h2, emit_block_offset]
      refine ⟨?_, ?_, ?_⟩
      · simp only [List.length_take]
        simp only [kBlockSize, kHeaderSize] at *
        omega
      · simp [eventsSafe, List.length_take]
        simp only [kBlockSize, kHeaderSize] at *
        omega
      · intro tail htail
        simp only [List.nil_append, List.singleton_append]
        rw [trailerInv_record_cons]
        simp [htail]
        simp only [kBlockSize, kHeaderSize]
        omega
  · simp only [addStep, afterTrailer_case_none w h1, emit_block_offset]
    refine ⟨?_, ?_, ?_⟩
    · simp only [List.length_take]
      simp only [kBlockSize, kHeaderSize] at *
      omega
    · simp [eventsSafe, List.length_take]
      simp only [kBlockSize, kHeaderSize] at *
      omega
    · intro tail htail
      simp only [List.nil_append, List.singleton_append]
      rw [trailerInv_record_cons]
      simp [htail]
      simp only [kBlockSize, kHeaderSize] at *
      omega


theorem eventsSafe_append (a b : List Event) :
    eventsSafe (a ++ b) = (eventsSafe a && eventsSafe b) := by
  simp [eventsSafe, List.all_append]

theorem addLoop_continue (c : Crc) (w : Writer) (ptr : List Nat) (b : Bool)
    (h : (addStep c w ptr b).1.isOk = true ∧ 0 < (addStep c w ptr b).2.2.2.length) :
    addLoop c w ptr b =
      ((addLoop c (addStep c w ptr b).2.1 (addStep c w ptr b).2.2.2 false).1,
       (addLoop c (addStep c w ptr b).2.1 (addStep c w ptr b).2.2.2 false).2.1,
       (addStep c w ptr b).2.2.1 ++
         (addLoop c (addStep c w ptr b).2.1 (addStep c w ptr b).2.2.2 false).2.2) := by
  rw [addLoop]
  simp only [dif_pos h]

theorem addLoop_stop (c : Crc) (w : Writer) (ptr : List Nat) (b : Bool)
    (h : ¬ ((addStep c w ptr b).1.isOk = true ∧ 0 < (addStep c w ptr b).2.2.2.length)) :
    addLoop c w ptr b =
      ((addStep c w ptr b).1, (addStep c w ptr b).2.1, (addStep c w ptr b).2.2.1) := by
  rw [addLoop]
  simp only [dif_neg h]

theorem addLoop_safety (c : Crc) (w0 : Writer) (ptr0 : List Nat) (b0 : Bool) :
    (addLoop c w0 ptr0 b0).2.1.block_offset ≤ kBlockSize ∧
    eventsSafe (addLoop c w0 ptr0 b0).2.2 = true ∧
    ∀ tail, trailerInv tail = true →
      trailerInv ((addLoop c w0 ptr0 b0).2.2 ++ tail) = true := by
  induction w0, ptr0, b0 using addLoop.induct c with
  | case1 w ptr b st h ih =>
    have h2 : (addStep c w ptr b).1.isOk = true ∧
        0 < (addStep c w ptr b).2.2.2.length := h
    rw [addLoop_continue c w ptr b h2]
    obtain ⟨iho, ihs, ihp⟩ := ih
    obtain ⟨sto, sts, stp⟩ := addStep_safety c w ptr b
    refine ⟨iho, ?_, ?_⟩
    · rw [eventsSafe_append, sts]
      have ihs2 : eventsSafe (addLoop c (addStep c w ptr b).2.1
          (addStep c w ptr b).2.2.2 false).2.2 = true := ihs
      rw [ihs2]
      rfl
    · intro tail htail
      rw [List.append_assoc]
      exact stp _ (ihp tail htail)
  | case2 w ptr b st h =>
    have h2 : ¬ ((addStep c w ptr b).1.isOk = true ∧
        0 < (addStep c w ptr b).2.2.2.length) := h
    rw [addLoop_stop c w ptr b h2]
    obtain ⟨sto, sts, stp⟩ := addStep_safety c w ptr b
    refine ⟨sto, sts, ?_⟩
    intro tail htail
    exact stp tail htail


theorem addStep_trace (c : Crc) (w : Writer) (ptr : List Nat) (b : Bool) :
    (addStep c w ptr b).2.2.1 =
      (afterTrailer w).2 ++
        [Event.record (afterTrailer w).1.block_offset
          (afterTrailer w).1.dest.contents.length
          (recTypeOf b (decide (ptr.length = min ptr.length
            (kBlockSize - (afterTrailer w).1.block_offset - kHeaderSize))))
          (ptr.take (min ptr.length
            (kBlockSize - (afterTrailer w).1.block_offset - kHeaderSize)))
          (addStep c w ptr b).1] := rfl

theorem addStep_rest (c : Crc) (w : Writer) (ptr : List Nat) (b : Bool) :
    (addStep c w ptr b).2.2.2 = ptr.drop (min ptr.length
      (kBlockSize - (afterTrailer w).1.block_offset - kHeaderSize)) := rfl

theorem recPayloads_append (a b : List Event) :
    recPayloads (a ++ b) = recPayloads a ++ recPayloads b := by
  simp [recPayloads]

theorem recTypes_append (a b : List Event) :
    recTypes (a ++ b) = recTypes a ++ recTypes b := by
  simp [recTypes]

theorem recPayloads_afterTrailer (w : Writer) :
    recPayloads (afterTrailer w).2 = [] := by
  unfold afterTrailer
  by_cases h1 : kBlockSize - w.block_offset < kHeaderSize
  · by_cases h2 : 0 < kBlockSize - w.block_offset <;> simp [h1, h2, recPayloads]
  · simp [h1, recPayloads]

theorem recTypes_afterTrailer (w : Writer) :
    recTypes (afterTrailer w).2 = [] := by
  unfold afterTrailer
  by_cases h1 : kBlockSize - w.block_offset < kHeaderSize
  · by_cases h2 : 0 < kBlockSize - w.block_offset <;> simp [h1, h2, recTypes]
  · simp [h1, recTypes]

theorem addStep_schedule_nil (c : Crc) (w : Writer) (ptr : List Nat) (b : Bool)
    (h : w.dest.schedule = []) :
    (addStep c w ptr b).1 = Status.ok ∧
    (addStep c w ptr b).2.1.dest.schedule = [] := by
  have h1 := afterTrailer_schedule_nil w h
  obtain ⟨e1, e2, -⟩ := emit_of_schedule_nil c (afterTrailer w).1
    (recTypeOf b (decide (ptr.length = min ptr.length
      (kBlockSize - (afterTrailer w).1.block_offset - kHeaderSize))))
    (ptr.take (min ptr.length
      (kBlockSize - (afterTrailer w).1.block_offset - kHeaderSize))) h1
  exact ⟨e1, e2⟩

theorem addLoop_schedule_nil (c : Crc) (w0 : Writer) (ptr0 : List Nat) (b0 : Bool) :
    w0.dest.schedule = [] →
      (addLoop c w0 ptr0 b0).1 = Status.ok ∧
      (addLoop c w0 ptr0 b0).2.1.dest.schedule = [] := by
  induction w0, ptr0, b0 using addLoop.induct c with
  | case1 w ptr b st h ih =>
    intro hs
    have h2 : (addStep c w ptr b).1.isOk = true ∧
        0 < (addStep c w ptr b).2.2.2.length := h
    rw [addLoop_continue c w ptr b h2]
    have hstep := addStep_schedule_nil c w ptr b hs
    exact ih hstep.2
  | case2 w ptr b st h =>
    intro hs
    have h2 : ¬ ((addStep c w ptr b).1.isOk = true ∧
        0 < (addStep c w ptr b).2.2.2.length) := h
    rw [addLoop_stop c w ptr b h2]
    exact ⟨(addStep_schedule_nil c w ptr b hs).1, (addStep_schedule_nil c w ptr b hs).2⟩

theorem recPayloads_record (bo so t : Nat) (p : List Nat) (st : Status) :
    recPayloads [Event.record bo so t p st] = [p] := rfl

theorem recTypes_record (bo so t : Nat) (p : List Nat) (st : Status) :
    recTypes [Event.record bo so t p st] = [t] := rfl

theorem addLoop_join (c : Crc) (w0 : Writer) (ptr0 : List Nat) (b0 : Bool) :
    ((addLoop c w0 ptr0 b0).1 = Status.ok →
      (recPayloads (addLoop c w0 ptr0 b0).2.2).flatten = ptr0) ∧
    (∃ n, (recPayloads (addLoop c w0 ptr0 b0).2.2).flatten = ptr0.take n) := by
  induction w0, ptr0, b0 using addLoop.induct c with
  | case1 w ptr b st h ih =>
    have h2 : (addStep c w ptr b).1.isOk = true ∧
        0 < (addStep c w ptr b).2.2.2.length := h
    have ih2 : ((addLoop c (addStep c w ptr b).2.1
          (addStep c w ptr b).2.2.2 false).1 = Status.ok →
        (recPayloads (addLoop c (addStep c w ptr b).2.1
          (addStep c w ptr b).2.2.2 false).2.2).flatten = (addStep c w ptr b).2.2.2) ∧
        (∃ n, (recPayloads (addLoop c (addStep c w ptr b).2.1
          (addStep c w ptr b).2.2.2 false).2.2).flatten =
            (addStep c w ptr b).2.2.2.take n) := ih
    rw [addLoop_continue c w ptr b h2]
    simp only [addStep_trace, recPayloads_append, recPayloads_afterTrailer,
      List.nil_append, recPayloads_record, List.flatten_append, List.flatten_cons,
      List.flatten_nil, List.append_nil]
    constructor
    · intro hok
      rw [ih2.1 hok, addStep_rest]
      exact List.take_append_drop _ ptr
    · obtain ⟨n, hn⟩ := ih2.2
      rw [hn, addStep_rest]
      exact ⟨min ptr.length (kBlockSize - (afterTrailer w).1.block_offset - kHeaderSize) + n,
        (List.take_add ptr _ n).symm⟩
  | case2 w ptr b st h =>
    have h2 : ¬ ((addStep c w ptr b).1.isOk = true ∧
        0 < (addStep c w ptr b).2.2.2.length) := h
    rw [addLoop_stop c w ptr b h2]
    simp only [addStep_trace, recPayloads_append, recPayloads_afterTrailer,
      List.nil_append, recPayloads_record, List.flatten_cons, List.flatten_nil,
      List.append_nil]
    constructor
    · intro hok
      have hrl : (addStep c w ptr b).2.2.2.length = 0 := by
        by_contra hne
        exact h2 ⟨by rw [hok]; rfl, Nat.pos_of_ne_zero hne⟩
      rw [addStep_rest, List.length_drop] at hrl
      have hfrag : min ptr.length
          (kBlockSize - (afterTrailer w).1.block_offset - kHeaderSize) = ptr.length := by
        omega
      rw [hfrag, List.take_length]
    · exact ⟨min ptr.length (kBlockSize - (afterTrailer w).1.block_offset - kHeaderSize),
        rfl⟩


theorem recTypeOf_false_true : recTypeOf false true = kLastType := rfl

theorem recTypeOf_false_false : recTypeOf false false = kMiddleType := rfl

theorem addLoop_tags (c : Crc) (w0 : Writer) (ptr0 : List Nat) (b0 : Bool) :
    (addLoop c w0 ptr0 b0).1 = Status.ok →
    ∃ m, recTypes (addLoop c w0 ptr0 b0).2.2 =
      if ptr0.length ≤ kBlockSize - (afterTrailer w0).1.block_offset - kHeaderSize
      then [recTypeOf b0 true]
      else recTypeOf b0 false :: (List.replicate m kMiddleType ++ [kLastType]) := by
  induction w0, ptr0, b0 using addLoop.induct c with
  | case1 w ptr b st h ih =>
    intro hok
    have h2 : (addStep c w ptr b).1.isOk = true ∧
        0 < (addStep c w ptr b).2.2.2.length := h
    have ih2 : (addLoop c (addStep c w ptr b).2.1
          (addStep c w ptr b).2.2.2 false).1 = Status.ok →
        ∃ m, recTypes (addLoop c (addStep c w ptr b).2.1
          (addStep c w ptr b).2.2.2 false).2.2 =
          if (addStep c w ptr b).2.2.2.length ≤
              kBlockSize - (afterTrailer (addStep c w ptr b).2.1).1.block_offset - kHeaderSize
          then [recTypeOf false true]
          else recTypeOf false false ::
            (List.replicate m kMiddleType ++ [kLastType]) := ih
    rw [addLoop_continue c w ptr b h2] at hok ⊢
    have hlt : 0 < (addStep c w ptr b).2.2.2.length := h2.2
    rw [addStep_rest, List.length_drop] at hlt
    have hgt : ¬ (ptr.length ≤ kBlockSize - (afterTrailer w).1.block_offset - kHeaderSize) := by
      omega
    have hfrag : min ptr.length (kBlockSize - (afterTrailer w).1.block_offset - kHeaderSize)
        = kBlockSize - (afterTrailer w).1.block_offset - kHeaderSize := by
      omega
    have hdec : decide (ptr.length = min ptr.length
        (kBlockSize - (afterTrailer w).1.block_offset - kHeaderSize)) = false := by
      simp only [decide_eq_false_iff_not]
      omega
    obtain ⟨m, hm⟩ := ih2 hok
    simp only [addStep_trace, recTypes_append, recTypes_afterTrailer, List.nil_append,
      recTypes_record, hdec]
    rw [hm]
    by_cases hc : (addStep c w ptr b).2.2.2.length ≤
        kBlockSize - (afterTrailer (addStep c w ptr b).2.1).1.block_offset - kHeaderSize
    · refine ⟨0, ?_⟩
      rw [if_pos hc, if_neg hgt]
      simp [recTypeOf_false_true]
    · refine ⟨m + 1, ?_⟩
      rw [if_neg hc, if_neg hgt]
      simp [recTypeOf_false_false, List.replicate_succ]
  | case2 w ptr b st h =>
    intro hok
    have h2 : ¬ ((addStep c w ptr b).1.isOk = true ∧
        0 < (addStep c w ptr b).2.2.2.length) := h
    rw [addLoop_stop c w ptr b h2] at hok ⊢
    have hrl : (addStep c w ptr b).2.2.2.length = 0 := by
      by_contra hne
      exact h2 ⟨by rw [hok]; rfl, Nat.pos_of_ne_zero hne⟩
    rw [addStep_rest, List.length_drop] at hrl
    have hle : ptr.length ≤ kBlockSize - (afterTrailer w).1.block_offset - kHeaderSize := by
      omega
    have hdec : decide (ptr.length = min ptr.length
        (kBlockSize - (afterTrailer w).1.block_offset - kHeaderSize)) = true := by
      simp only [decide_eq_true_eq]
      omega
    refine ⟨0, ?_⟩
    rw [if_pos hle]
    simp only [addStep_trace, recTypes_append, recTypes_afterTrailer, List.nil_append,
      recTypes_record, hdec]

theorem addLoop_failure (c : Crc) (w0 : Writer) (ptr0 : List Nat) (b0 : Bool) :
    (addLoop c w0 ptr0 b0).1 ≠ Status.ok →
    ∃ pre bo so t q,
      (addLoop c w0 ptr0 b0).2.2 = pre ++
        [Event.record bo so t q (addLoop c w0 ptr0 b0).1] ∧
      (∀ e ∈ pre, ∀ bo2 so2 t2 q2 s2,
        e = Event.record bo2 so2 t2 q2 s2 → s2 = Status.ok) := by
  induction w0, ptr0, b0 using addLoop.induct c with
  | case1 w ptr b st h ih =>
    intro hne
    have h2 : (addStep c w ptr b).1.isOk = true ∧
        0 < (addStep c w ptr b).2.2.2.length := h
    have ih2 : (addLoop c (addStep c w ptr b).2.1
          (addStep c w ptr b).2.2.2 false).1 ≠ Status.ok →
        ∃ pre bo so t q, (addLoop c (addStep c w ptr b).2.1
            (addStep c w ptr b).2.2.2 false).2.2 = pre ++
          [Event.record bo so t q (addLoop c (addStep c w ptr b).2.1
            (addStep c w ptr b).2.2.2 false).1] ∧
          (∀ e ∈ pre, ∀ bo2 so2 t2 q2 s2,
            e = Event.record bo2 so2 t2 q2 s2 → s2 = Status.ok) := ih
    rw [addLoop_continue c w ptr b h2] at hne ⊢
    obtain ⟨pre, bo, so, t, q, htr, hpre⟩ := ih2 hne
    have hsok : (addStep c w ptr b).1 = Status.ok := by
      cases hoks : (addStep c w ptr b).1 with
      | ok => rfl
      | ioError e =>
        rw [hoks] at h2
        exact absurd h2.1 (by simp [Status.isOk])
    refine ⟨(addStep c w ptr b).2.2.1 ++ pre, bo, so, t, q, ?_, ?_⟩
    · rw [List.append_assoc, htr]
    · intro e he bo2 so2 t2 q2 s2 hrec
      rcases List.mem_append.mp he with hin | hin
      · rw [addStep_trace] at hin
        rcases List.mem_append.mp hin with hin2 | hin2
        · exfalso
          revert hin2
          unfold afterTrailer
          by_cases ha1 : kBlockSize - w.block_offset < kHeaderSize
          · by_cases ha2 : 0 < kBlockSize - w.block_offset <;>
              simp [ha1, ha2, hrec]
          · simp [ha1]
        · simp only [List.mem_singleton] at hin2
          rw [hin2] at hrec
          rw [Event.record.injEq] at hrec
          rw [← hrec.2.2.2.2, hsok]
      · exact hpre e hin bo2 so2 t2 q2 s2 hrec
  | case2 w ptr b st h =>
    intro hne
    have h2 : ¬ ((addStep c w ptr b).1.isOk = true ∧
        0 < (addStep c w ptr b).2.2.2.length) := h
    rw [addLoop_stop c w ptr b h2] at hne ⊢
    refine ⟨(afterTrailer w).2, (afterTrailer w).1.block_offset,
      (afterTrailer w).1.dest.contents.length, _, _, addStep_trace c w ptr b, ?_⟩
    intro e he bo2 so2 t2 q2 s2 hrec
    exfalso
    revert he
    unfold afterTrailer
    by_cases ha1 : kBlockSize - w.block_offset < kHeaderSize
    · by_cases ha2 : 0 < kBlockSize - w.block_offset <;> simp [ha1, ha2, hrec]
    · simp [ha1]


theorem AddRecord_def (c : Crc) (w : Writer) (p : List Nat) :
    AddRecord c w p = addLoop c w p true := rfl

theorem emit_first_failing (c : Crc) (w : Writer) (t : Nat) (p : List Nat) :
    (EmitPhysicalRecord c w t p).1 =
      ((w.dest.schedule.take 3).find? (fun s => ! s.isOk)).getD Status.ok := by
  rcases hs : w.dest.schedule with _ | ⟨s1, rest1⟩
  · simp [EmitPhysicalRecord, fileAppend, fileFlush, hs, Status.isOk]
  · rcases rest1 with _ | ⟨s2, rest2⟩
    · cases s1 <;>
        simp [EmitPhysicalRecord, fileAppend, fileFlush, hs, Status.isOk]
    · rcases rest2 with _ | ⟨s3, rest3⟩
      · cases s1 <;> cases s2 <;>
          simp [EmitPhysicalRecord, fileAppend, fileFlush, hs, Status.isOk]
      · cases s1 <;> cases s2 <;> cases s3 <;>
          simp [EmitPhysicalRecord, fileAppend, fileFlush, hs, Status.isOk]

theorem runAll_safety (c : Crc) (ps : List (List Nat)) : ∀ w : Writer,
    ((runAll c w ps).1.block_offset ≤ kBlockSize ∨ ps = []) ∧
    eventsSafe (runAll c w ps).2 = true ∧
    ∀ tail, trailerInv tail = true →
      trailerInv ((runAll c w ps).2 ++ tail) = true := by
  induction ps with
  | nil =>
    intro w
    refine ⟨Or.inr rfl, rfl, ?_⟩
    intro tail htail
    simpa using htail
  | cons p rest ih =>
    intro w
    obtain ⟨lo, ls, lp⟩ := addLoop_safety c w p true
    obtain ⟨io, is2, ip⟩ := ih (AddRecord c w p).2.1
    rw [AddRecord_def] at io is2 ip
    have hrw : runAll c w (p :: rest) =
        ((runAll c (addLoop c w p true).2.1 rest).1,
         (addLoop c w p true).2.2 ++ (runAll c (addLoop c w p true).2.1 rest).2) := rfl
    rw [hrw]
    refine ⟨?_, ?_, ?_⟩
    · rcases io with h | h
      · exact Or.inl h
      · rw [h]
        exact Or.inl lo
    · rw [eventsSafe_append]
      rw [ls, is2]
      rfl
    · intro tail htail
      rw [List.append_assoc]
      exact lp _ (ip tail htail)


theorem addLoop_one (c : Crc) (w : Writer) (ptr : List Nat) (b : Bool)
    (hs : w.dest.schedule = [])
    (hfit : ptr.length ≤ kBlockSize - (afterTrailer w).1.block_offset - kHeaderSize) :
    (addLoop c w ptr b).1 = Status.ok ∧
    (addLoop c w ptr b).2.2 = (afterTrailer w).2 ++
      [Event.record (afterTrailer w).1.block_offset
        (afterTrailer w).1.dest.contents.length (recTypeOf b true) ptr Status.ok] ∧
    (addLoop c w ptr b).2.1.block_offset =
      (afterTrailer w).1.block_offset + kHeaderSize + ptr.length ∧
    (addLoop c w ptr b).2.1.dest.contents =
      (afterTrailer w).1.dest.contents ++
        recordHeader c w.type_crc (recTypeOf b true) ptr ++ ptr ∧
    (addLoop c w ptr b).2.1.dest.schedule = [] ∧
    (addLoop c w ptr b).2.1.type_crc = w.type_crc := by
  have hsched : (afterTrailer w).1.dest.schedule = [] := afterTrailer_schedule_nil w hs
  have hfrag : min ptr.length
      (kBlockSize - (afterTrailer w).1.block_offset - kHeaderSize) = ptr.length := by
    omega
  have htcrc : (afterTrailer w).1.type_crc = w.type_crc := afterTrailer_type_crc w
  have hdec : decide (ptr.length = min ptr.length
      (kBlockSize - (afterTrailer w).1.block_offset - kHeaderSize)) = true := by
    simp [hfrag]
  obtain ⟨e1, e2, e3⟩ := emit_of_schedule_nil c (afterTrailer w).1
    (recTypeOf b (decide (ptr.length = min ptr.length
      (kBlockSize - (afterTrailer w).1.block_offset - kHeaderSize))))
    (ptr.take (min ptr.length
      (kBlockSize - (afterTrailer w).1.block_offset - kHeaderSize))) hsched
  have hstop : ¬ ((addStep c w ptr b).1.isOk = true ∧
      0 < (addStep c w ptr b).2.2.2.length) := by
    rintro ⟨-, hl⟩
    rw [addStep_rest, List.length_drop, hfrag] at hl
    omega
  have hs1 : (addStep c w ptr b).1 = Status.ok := e1
  rw [addLoop_stop c w ptr b hstop]
  refine ⟨hs1, ?_, ?_, ?_, ?_, ?_⟩
  · rw [addStep_trace, hdec, hfrag, List.take_length, hs1]
  · have : (addStep c w ptr b).2.1.block_offset =
        (afterTrailer w).1.block_offset + kHeaderSize +
          (ptr.take (min ptr.length
            (kBlockSize - (afterTrailer w).1.block_offset - kHeaderSize))).length := rfl
    rw [this, hfrag, List.take_length]
  · have : (addStep c w ptr b).2.1.dest.contents =
        (EmitPhysicalRecord c (afterTrailer w).1
          (recTypeOf b (decide (ptr.length = min ptr.length
            (kBlockSize - (afterTrailer w).1.block_offset - kHeaderSize))))
          (ptr.take (min ptr.length
            (kBlockSize - (afterTrailer w).1.block_offset - kHeaderSize)))).2.dest.contents := rfl
    rw [this, e3, hdec, hfrag, List.take_length, htcrc]
  · exact e2
  · have : (addStep c w ptr b).2.1.type_crc = (afterTrailer w).1.type_crc := rfl
    rw [this, htcrc]


/-- Claim C1: `EmitPhysicalRecord(type, ptr, length)` appends a 7-byte
header whose bytes 0-3 are the masked checksum `mask(extend(table[type],
payload))` in little-endian order, bytes 4-5 the payload length in
little-endian order, and byte 6 the type tag; the table entry is the
construction-time checksum of the single type byte. -/
theorem emitPhysicalRecord_header_layout (c : Crc) (w : Writer) (t : Nat)
    (p : List Nat) (htab : w.type_crc = InitTypeCrc c) (ht : t ≤ kMaxRecordType)
    (hlen : p.length ≤ 0xffff) (hs : w.dest.schedule = []) :
    recordHeader c w.type_crc t p =
      [c.mask (c.extend (c.value [t]) p) % 256,
       c.mask (c.extend (c.value [t]) p) / 256 % 256,
       c.mask (c.extend (c.value [t]) p) / 65536 % 256,
       c.mask (c.extend (c.value [t]) p) / 16777216 % 256,
       p.length % 256, p.length / 256, t] ∧
    (EmitPhysicalRecord c w t p).2.dest.contents =
      w.dest.contents ++ recordHeader c w.type_crc t p ++ p := by
  constructor
  · rw [recordHeader_eq, htab, initTypeCrc_getD c t ht]
    have ht4 : t ≤ 4 := ht
    have h5 : p.length / 256 % 256 = p.length / 256 := by omega
    have h6 : t % 256 = t := by omega
    rw [h5, h6]
  · exact (emit_of_schedule_nil c w t p hs).2.2

theorem emitPhysicalRecord_header_layout_witness :
    recordHeader demoCrc (Writer.mkNew demoCrc emptyFile).type_crc kFullType [] =
      [demoCrc.mask (demoCrc.extend (demoCrc.value [kFullType]) []) % 256,
       demoCrc.mask (demoCrc.extend (demoCrc.value [kFullType]) []) / 256 % 256,
       demoCrc.mask (demoCrc.extend (demoCrc.value [kFullType]) []) / 65536 % 256,
       demoCrc.mask (demoCrc.extend (demoCrc.value [kFullType]) []) / 16777216 % 256,
       ([] : List Nat).length % 256, ([] : List Nat).length / 256, kFullType] ∧
    (EmitPhysicalRecord demoCrc (Writer.mkNew demoCrc emptyFile) kFullType
        []).2.dest.contents =
      (Writer.mkNew demoCrc emptyFile).dest.contents ++
        recordHeader demoCrc (Writer.mkNew demoCrc emptyFile).type_crc kFullType [] ++
        [] :=
  emitPhysicalRecord_header_layout demoCrc (Writer.mkNew demoCrc emptyFile)
    kFullType [] rfl (by decide) (by decide) rfl

/-- Claim C2: over any sequence of `AddRecord` calls, no physical-record
header starts at an in-block offset with fewer than `kHeaderSize` bytes
left in the block, and every block switch with `0 < leftover <
kHeaderSize` appends exactly `leftover` zero bytes as a trailer and
resets the cursor to 0 before the next header. -/
theorem addRecord_trailer_invariant (c : Crc) (w : Writer)
    (ps : List (List Nat)) : trailerInv (runAll c w ps).2 = true := by
  have h := (runAll_safety c ps w).2.2 [] rfl
  simpa using h

/-- Claim C3: a successful `AddRecord` of a payload longer than the
space available in the current block emits exactly one `First`, zero or
more `Middle` and one `Last` record, whose payloads concatenate to the
argument. -/
theorem addRecord_fragmentation_shape (c : Crc) (w : Writer) (p : List Nat)
    (hlong : kBlockSize - (afterTrailer w).1.block_offset - kHeaderSize < p.length)
    (hok : (AddRecord c w p).1 = Status.ok) :
    (∃ m, recTypes (AddRecord c w p).2.2 =
      kFirstType :: (List.replicate m kMiddleType ++ [kLastType])) ∧
    (recPayloads (AddRecord c w p).2.2).flatten = p := by
  rw [AddRecord_def] at hok ⊢
  constructor
  · obtain ⟨m, hm⟩ := addLoop_tags c w p true hok
    rw [if_neg (by omega)] at hm
    exact ⟨m, hm⟩
  · exact (addLoop_join c w p true).1 hok

theorem addRecord_fragmentation_shape_witness :
    (∃ m, recTypes (AddRecord demoCrc (Writer.mkNew demoCrc emptyFile)
        (List.replicate 32762 0)).2.2 =
      kFirstType :: (List.replicate m kMiddleType ++ [kLastType])) ∧
    (recPayloads (AddRecord demoCrc (Writer.mkNew demoCrc emptyFile)
        (List.replicate 32762 0)).2.2).flatten = List.replicate 32762 0 :=
  addRecord_fragmentation_shape demoCrc (Writer.mkNew demoCrc emptyFile)
    (List.replicate 32762 0)
    (by
      rw [afterTrailer_case_none _ (by decide), List.length_replicate]
      decide)
    ((addLoop_schedule_nil demoCrc (Writer.mkNew demoCrc emptyFile)
        (List.replicate 32762 0) true rfl).1)

/-- Claim C4: `EmitPhysicalRecord` advances the in-block cursor by
exactly `kHeaderSize + length` whether or not the header append, the
payload append or the flush succeeds. -/
theorem emitPhysicalRecord_cursor_advance (c : Crc) (w : Writer) (t : Nat)
    (p : List Nat) :
    (EmitPhysicalRecord c w t p).2.block_offset =
      w.block_offset + kHeaderSize + p.length := emit_block_offset c w t p

/-- Claim C5: `EmitPhysicalRecord` returns the status of the first
failing sink call (of at most three: header append, payload append,
flush) unchanged, or success; and a failing `AddRecord` ends its trace
with the failing emission, all earlier emissions succeeded, and the
emitted payloads form a prefix of the argument. -/
theorem error_status_propagation :
    (∀ (c : Crc) (w : Writer) (t : Nat) (p : List Nat),
      (EmitPhysicalRecord c w t p).1 =
        ((w.dest.schedule.take 3).find? (fun s => ! s.isOk)).getD Status.ok) ∧
    (∀ (c : Crc) (w : Writer) (p : List Nat),
      (AddRecord c w p).1 ≠ Status.ok →
      (∃ pre bo so t q,
        (AddRecord c w p).2.2 = pre ++
          [Event.record bo so t q (AddRecord c w p).1] ∧
        (∀ e ∈ pre, ∀ bo2 so2 t2 q2 s2,
          e = Event.record bo2 so2 t2 q2 s2 → s2 = Status.ok)) ∧
      (∃ n, (recPayloads (AddRecord c w p).2.2).flatten = p.take n)) := by
  constructor
  · exact emit_first_failing
  · intro c w p hne
    rw [AddRecord_def] at hne ⊢
    exact ⟨addLoop_failure c w p true hne, (addLoop_join c w p true).2⟩

theorem error_status_propagation_witness :
    ((EmitPhysicalRecord demoCrc (Writer.mkNew demoCrc failFile) kFullType []).1 =
      (((Writer.mkNew demoCrc failFile).dest.schedule.take 3).find?
        (fun s => ! s.isOk)).getD Status.ok) ∧
    ((∃ pre bo so t q,
        (AddRecord demoCrc (Writer.mkNew demoCrc failFile) []).2.2 =
          pre ++ [Event.record bo so t q
            (AddRecord demoCrc (Writer.mkNew demoCrc failFile) []).1] ∧
        (∀ e ∈ pre, ∀ bo2 so2 t2 q2 s2,
          e = Event.record bo2 so2 t2 q2 s2 → s2 = Status.ok)) ∧
      (∃ n, (recPayloads (AddRecord demoCrc
          (Writer.mkNew demoCrc failFile) []).2.2).flatten =
        ([] : List Nat).take n)) :=
  ⟨error_status_propagation.1 demoCrc (Writer.mkNew demoCrc failFile) kFullType [],
   error_status_propagation.2 demoCrc (Writer.mkNew demoCrc failFile) []
     (by
       have h1 : ¬ ((addStep demoCrc (Writer.mkNew demoCrc failFile)
           ([] : List Nat) true).1.isOk = true ∧
           0 < (addStep demoCrc (Writer.mkNew demoCrc failFile)
             ([] : List Nat) true).2.2.2.length) := by decide
       rw [AddRecord_def, addLoop_stop demoCrc (Writer.mkNew demoCrc failFile)
         ([] : List Nat) true h1]
       decide)⟩


/-- Claim C6 counterexample: at in-block cursor 32762 (block switch
needed), `AddRecord` with an empty payload moves the cursor to 7, not to
32762 + 7, so the claim as stated fails at this writer state. -/
theorem addRecord_empty_payload_cex :
    ¬ (recTypes (AddRecord demoCrc
          (Writer.mkResume demoCrc emptyFile 32762) []).2.2 = [kFullType] ∧
       recPayloads (AddRecord demoCrc
          (Writer.mkResume demoCrc emptyFile 32762) []).2.2 = [[]] ∧
       (AddRecord demoCrc (Writer.mkResume demoCrc emptyFile 32762) []).2.1.block_offset =
         (Writer.mkResume demoCrc emptyFile 32762).block_offset + kHeaderSize) := by
  rintro ⟨-, -, h3⟩
  have h1 : ¬ ((addStep demoCrc (Writer.mkResume demoCrc emptyFile 32762)
      ([] : List Nat) true).1.isOk = true ∧
      0 < (addStep demoCrc (Writer.mkResume demoCrc emptyFile 32762)
        ([] : List Nat) true).2.2.2.length) := by decide
  rw [AddRecord_def, addLoop_stop demoCrc (Writer.mkResume demoCrc emptyFile 32762)
    ([] : List Nat) true h1] at h3
  exact absurd h3 (by decide)

/-- Claim C6 (amended): for every writer state, `AddRecord` with an
empty payload emits exactly one physical record, of type `Full` with
payload length 0; when at least `kHeaderSize` bytes are left in the
current block (no block switch), the in-block cursor advances by exactly
`kHeaderSize`. -/
theorem addRecord_empty_payload (c : Crc) (w : Writer) :
    recTypes (AddRecord c w []).2.2 = [kFullType] ∧
    recPayloads (AddRecord c w []).2.2 = [[]] ∧
    (w.block_offset + kHeaderSize ≤ kBlockSize →
      (AddRecord c w []).2.1.block_offset = w.block_offset + kHeaderSize) := by
  rw [AddRecord_def]
  have hstop : ¬ ((addStep c w [] true).1.isOk = true ∧
      0 < (addStep c w [] true).2.2.2.length) := by
    rintro ⟨-, hl⟩
    rw [addStep_rest, List.length_drop] at hl
    simp at hl
  rw [addLoop_stop c w [] true hstop]
  have hdec : decide (([] : List Nat).length = min ([] : List Nat).length
      (kBlockSize - (afterTrailer w).1.block_offset - kHeaderSize)) = true := by
    simp
  refine ⟨?_, ?_, ?_⟩
  · rw [addStep_trace, hdec, recTypes_append, recTypes_afterTrailer,
      List.nil_append, recTypes_record]
    rfl
  · rw [addStep_trace, recPayloads_append, recPayloads_afterTrailer,
      List.nil_append, recPayloads_record]
    simp
  · intro h
    have hat : afterTrailer w = (w, []) := afterTrailer_case_none w (by omega)
    have hofs : (addStep c w [] true).2.1.block_offset =
        (afterTrailer w).1.block_offset + kHeaderSize +
          (([] : List Nat).take (min ([] : List Nat).length
            (kBlockSize - (afterTrailer w).1.block_offset - kHeaderSize))).length := rfl
    rw [hofs, hat]
    simp

theorem addRecord_empty_payload_witness :
    ((Writer.mkNew demoCrc emptyFile).block_offset + kHeaderSize ≤ kBlockSize) ∧
    (recTypes (AddRecord demoCrc (Writer.mkNew demoCrc emptyFile) []).2.2 =
      [kFullType] ∧
     recPayloads (AddRecord demoCrc (Writer.mkNew demoCrc emptyFile) []).2.2 =
      [[]] ∧
     (AddRecord demoCrc (Writer.mkNew demoCrc emptyFile) []).2.1.block_offset =
      (Writer.mkNew demoCrc emptyFile).block_offset + kHeaderSize) := by
  have h := addRecord_empty_payload demoCrc (Writer.mkNew demoCrc emptyFile)
  exact ⟨by decide, h.1, h.2.1, h.2.2 (by decide)⟩

/-- Claim C7: a payload that fits in the fresh block (length at most
`kBlockSize - kHeaderSize`, hence also at most 65535) written through a
fresh writer over an always-succeeding sink yields exactly one `Full`
record whose header length field is the payload length and whose
checksum is `mask(extend(value([kFullType]), p))`. -/
theorem addRecord_single_full (c : Crc) (f : WritableFile) (p : List Nat)
    (h1 : p.length ≤ 0xffff) (h2 : p.length ≤ kBlockSize - kHeaderSize)
    (hs : f.schedule = []) :
    (AddRecord c (Writer.mkNew c f) p).1 = Status.ok ∧
    (AddRecord c (Writer.mkNew c f) p).2.2 =
      [Event.record 0 f.contents.length kFullType p Status.ok] ∧
    (AddRecord c (Writer.mkNew c f) p).2.1.dest.contents =
      f.contents ++ recordHeader c (InitTypeCrc c) kFullType p ++ p ∧
    recordHeader c (InitTypeCrc c) kFullType p =
      [c.mask (c.extend (c.value [kFullType]) p) % 256,
       c.mask (c.extend (c.value [kFullType]) p) / 256 % 256,
       c.mask (c.extend (c.value [kFullType]) p) / 65536 % 256,
       c.mask (c.extend (c.value [kFullType]) p) / 16777216 % 256,
       p.length % 256, p.length / 256, kFullType] := by
  have hat : afterTrailer (Writer.mkNew c f) = (Writer.mkNew c f, []) :=
    afterTrailer_case_none _ (by
      show ¬ kBlockSize - (0 : Nat) < kHeaderSize
      decide)
  have hfit : p.length ≤ kBlockSize -
      (afterTrailer (Writer.mkNew c f)).1.block_offset - kHeaderSize := by
    rw [hat]
    show p.length ≤ kBlockSize - (0 : Nat) - kHeaderSize
    simpa using h2
  obtain ⟨o1, o2, o3, o4, o5, o6⟩ :=
    addLoop_one c (Writer.mkNew c f) p true hs hfit
  rw [AddRecord_def]
  refine ⟨o1, ?_, ?_, ?_⟩
  · rw [o2, hat]
    rfl
  · rw [o4, hat]
    rfl
  · rw [recordHeader_eq, initTypeCrc_getD c kFullType (by decide)]
    have h5 : p.length / 256 % 256 = p.length / 256 := by omega
    have h6 : kFullType % 256 = kFullType := by decide
    rw [h5, h6]

theorem addRecord_single_full_witness :
    (AddRecord demoCrc (Writer.mkNew demoCrc emptyFile) [1, 2, 3]).1 = Status.ok ∧
    (AddRecord demoCrc (Writer.mkNew demoCrc emptyFile) [1, 2, 3]).2.2 =
      [Event.record 0 emptyFile.contents.length kFullType [1, 2, 3] Status.ok] ∧
    (AddRecord demoCrc (Writer.mkNew demoCrc emptyFile) [1, 2, 3]).2.1.dest.contents =
      emptyFile.contents ++
        recordHeader demoCrc (InitTypeCrc demoCrc) kFullType [1, 2, 3] ++ [1, 2, 3] ∧
    recordHeader demoCrc (InitTypeCrc demoCrc) kFullType [1, 2, 3] =
      [demoCrc.mask (demoCrc.extend (demoCrc.value [kFullType]) [1, 2, 3]) % 256,
       demoCrc.mask (demoCrc.extend (demoCrc.value [kFullType]) [1, 2, 3]) / 256 % 256,
       demoCrc.mask (demoCrc.extend (demoCrc.value [kFullType]) [1, 2, 3]) / 65536 % 256,
       demoCrc.mask (demoCrc.extend (demoCrc.value [kFullType]) [1, 2, 3]) / 16777216 % 256,
       ([1, 2, 3] : List Nat).length % 256, ([1, 2, 3] : List Nat).length / 256,
       kFullType] :=
  addRecord_single_full demoCrc emptyFile [1, 2, 3] (by decide) (by decide) rfl


/-- Claim C8: writing a 40000-byte payload through a fresh writer over
an always-succeeding, initially empty sink produces exactly two physical
records, `First` with payload length 32761 and `Last` with payload
length 7239, the second header starting at stream byte offset 32768
(the start of the second block) with no trailer bytes between them. -/
theorem addRecord_40000_split (c : Crc) (f : WritableFile) (p : List Nat)
    (hp : p.length = 40000) (hs : f.schedule = []) (hc : f.contents = []) :
    (AddRecord c (Writer.mkNew c f) p).1 = Status.ok ∧
    (AddRecord c (Writer.mkNew c f) p).2.2 =
      [Event.record 0 0 kFirstType (p.take 32761) Status.ok,
       Event.record 0 32768 kLastType (p.drop 32761) Status.ok] ∧
    (p.take 32761).length = 32761 ∧ (p.drop 32761).length = 7239 := by
  have hat1 : afterTrailer (Writer.mkNew c f) = (Writer.mkNew c f, []) :=
    afterTrailer_case_none _ (by
      show ¬ kBlockSize - (0 : Nat) < kHeaderSize
      decide)
  have hbo1 : (afterTrailer (Writer.mkNew c f)).1.block_offset = 0 := by
    rw [hat1]
    rfl
  have hmin1 : min p.length (kBlockSize -
      (afterTrailer (Writer.mkNew c f)).1.block_offset - kHeaderSize) = 32761 := by
    rw [hbo1, hp]
    decide
  have hdec1 : decide (p.length = min p.length (kBlockSize -
      (afterTrailer (Writer.mkNew c f)).1.block_offset - kHeaderSize)) = false := by
    rw [hmin1, hp]
    decide
  have hsched1 : (afterTrailer (Writer.mkNew c f)).1.dest.schedule = [] := by
    rw [hat1]
    exact hs
  obtain ⟨e1, e2, e3⟩ := emit_of_schedule_nil c (afterTrailer (Writer.mkNew c f)).1
    (recTypeOf true (decide (p.length = min p.length (kBlockSize -
      (afterTrailer (Writer.mkNew c f)).1.block_offset - kHeaderSize))))
    (p.take (min p.length (kBlockSize -
      (afterTrailer (Writer.mkNew c f)).1.block_offset - kHeaderSize))) hsched1
  have hemit1 : (addStep c (Writer.mkNew c f) p true).1 = Status.ok := e1
  have hrest1 : (addStep c (Writer.mkNew c f) p true).2.2.2 = p.drop 32761 := by
    rw [addStep_rest, hmin1]
  have hrlen1 : (addStep c (Writer.mkNew c f) p true).2.2.2.length = 7239 := by
    rw [hrest1, List.length_drop, hp]
  have hcont : (addStep c (Writer.mkNew c f) p true).1.isOk = true ∧
      0 < (addStep c (Writer.mkNew c f) p true).2.2.2.length := by
    constructor
    · rw [hemit1]
      rfl
    · rw [hrlen1]
      decide
  have hW2o : (addStep c (Writer.mkNew c f) p true).2.1.block_offset = 32768 := by
    have e : (addStep c (Writer.mkNew c f) p true).2.1.block_offset =
        (afterTrailer (Writer.mkNew c f)).1.block_offset + kHeaderSize +
          (p.take (min p.length (kBlockSize -
            (afterTrailer (Writer.mkNew c f)).1.block_offset - kHeaderSize))).length := rfl
    rw [e, hmin1, hbo1, List.length_take, hp]
    decide
  have hW2c : (addStep c (Writer.mkNew c f) p true).2.1.dest.contents.length = 32768 := by
    have e : (addStep c (Writer.mkNew c f) p true).2.1.dest.contents =
        (EmitPhysicalRecord c (afterTrailer (Writer.mkNew c f)).1
          (recTypeOf true (decide (p.length = min p.length (kBlockSize -
            (afterTrailer (Writer.mkNew c f)).1.block_offset - kHeaderSize))))
          (p.take (min p.length (kBlockSize -
            (afterTrailer (Writer.mkNew c f)).1.block_offset -
              kHeaderSize)))).2.dest.contents := rfl
    rw [e, e3]
    have hfc : (afterTrailer (Writer.mkNew c f)).1.dest.contents = ([] : List Nat) := by
      rw [hat1]
      exact hc
    rw [hfc, List.nil_append, List.length_append, recordHeader_length,
      List.length_take, hmin1, hp]
    decide
  have hW2s : (addStep c (Writer.mkNew c f) p true).2.1.dest.schedule = [] := e2
  have hat2 : afterTrailer (addStep c (Writer.mkNew c f) p true).2.1 =
      ({ (addStep c (Writer.mkNew c f) p true).2.1 with block_offset := 0 }, []) := by
    apply afterTrailer_case_reset
    · rw [hW2o]
      decide
    · rw [hW2o]
      decide
  have hbo2 : (afterTrailer (addStep c (Writer.mkNew c f) p true).2.1).1.block_offset
      = 0 := by
    rw [hat2]
  have hfit2 : (addStep c (Writer.mkNew c f) p true).2.2.2.length ≤ kBlockSize -
      (afterTrailer (addStep c (Writer.mkNew c f) p true).2.1).1.block_offset -
        kHeaderSize := by
    rw [hbo2, hrlen1]
    decide
  obtain ⟨o1, o2, o3, o4, o5, o6⟩ := addLoop_one c
    (addStep c (Writer.mkNew c f) p true).2.1
    (addStep c (Writer.mkNew c f) p true).2.2.2 false hW2s hfit2
  have hpad2 : (afterTrailer (addStep c (Writer.mkNew c f) p true).2.1).2 =
      ([] : List Event) := by
    rw [hat2]
  have hso2 : (afterTrailer (addStep c (Writer.mkNew c f) p true).2.1).1.dest.contents.length
      = 32768 := by
    rw [hat2]
    exact hW2c
  have hso1 : (afterTrailer (Writer.mkNew c f)).1.dest.contents.length = 0 := by
    rw [hat1]
    show f.contents.length = 0
    rw [hc]
    rfl
  rw [AddRecord_def, addLoop_continue c (Writer.mkNew c f) p true hcont]
  refine ⟨o1, ?_, ?_, ?_⟩
  · rw [addStep_trace, hdec1, hmin1, hbo1, hso1, hemit1, o2, hpad2, hbo2, hso2,
      hrest1]
    rfl
  · rw [List.length_take, hp]
    decide
  · rw [List.length_drop, hp]

theorem addRecord_40000_split_witness :
    (AddRecord demoCrc (Writer.mkNew demoCrc emptyFile)
      (List.replicate 40000 9)).1 = Status.ok ∧
    (AddRecord demoCrc (Writer.mkNew demoCrc emptyFile)
      (List.replicate 40000 9)).2.2 =
      [Event.record 0 0 kFirstType ((List.replicate 40000 9).take 32761) Status.ok,
       Event.record 0 32768 kLastType ((List.replicate 40000 9).drop 32761) Status.ok] ∧
    ((List.replicate 40000 9).take 32761).length = 32761 ∧
    ((List.replicate 40000 9).drop 32761).length = 7239 :=
  addRecord_40000_split demoCrc emptyFile (List.replicate 40000 9)
    (by rw [List.length_replicate]) rfl rfl

/-- Claim C9: from any writer whose cursor starts in `[0, kBlockSize)`,
over any sequence of `AddRecord` calls and any sink behaviour, the
cursor never exceeds `kBlockSize`, every emitted fragment satisfies
`length ≤ 0xffff` and `cursor + kHeaderSize + length ≤ kBlockSize`, and
every trailer pad has `1 ≤ leftover ≤ 6`, so the source's assertions
hold and the 6-byte zero literal is never read out of bounds. -/
theorem writer_safety_invariants (c : Crc) (w : Writer) (ps : List (List Nat))
    (h : w.block_offset < kBlockSize) :
    (runAll c w ps).1.block_offset ≤ kBlockSize ∧
    eventsSafe (runAll c w ps).2 = true := by
  obtain ⟨ho, hsafe, -⟩ := runAll_safety c ps w
  refine ⟨?_, hsafe⟩
  rcases ho with h1 | h1
  · exact h1
  · rw [h1]
    show w.block_offset ≤ kBlockSize
    omega

theorem writer_safety_invariants_witness :
    ((Writer.mkNew demoCrc emptyFile).block_offset < kBlockSize) ∧
    ((runAll demoCrc (Writer.mkNew demoCrc emptyFile) [[]]).1.block_offset ≤
        kBlockSize ∧
     eventsSafe (runAll demoCrc (Writer.mkNew demoCrc emptyFile) [[]]).2 = true) :=
  ⟨by decide,
   writer_safety_invariants demoCrc (Writer.mkNew demoCrc emptyFile) [[]] (by decide)⟩

/-- Claim C10: a non-empty `AddRecord` starting exactly at cursor
`kBlockSize - kHeaderSize` first emits a header-only record (type
`First`, payload length 0) that exactly fills the block, and the
subsequent fragments carry all the payload bytes. -/
theorem addRecord_header_only_first (c : Crc) (w : Writer) (p : List Nat)
    (hbo : w.block_offset = kBlockSize - kHeaderSize) (hp : 0 < p.length)
    (hok : (AddRecord c w p).1 = Status.ok) :
    ∃ rest, (AddRecord c w p).2.2 =
      Event.record (kBlockSize - kHeaderSize) w.dest.contents.length kFirstType []
        Status.ok :: rest ∧
      (recPayloads rest).flatten = p := by
  have hat : afterTrailer w = (w, []) :=
    afterTrailer_case_none w (by
      rw [hbo]
      simp only [kBlockSize, kHeaderSize]
      omega)
  have hbos : (afterTrailer w).1.block_offset = kBlockSize - kHeaderSize := by
    rw [hat]
    exact hbo
  have havail : kBlockSize - (afterTrailer w).1.block_offset - kHeaderSize = 0 := by
    rw [hbos]
    simp only [kBlockSize, kHeaderSize]
  have hfrag : min p.length
      (kBlockSize - (afterTrailer w).1.block_offset - kHeaderSize) = 0 := by
    rw [havail]
    exact Nat.min_zero p.length
  have hdec : decide (p.length = min p.length
      (kBlockSize - (afterTrailer w).1.block_offset - kHeaderSize)) = false := by
    rw [hfrag]
    simp only [decide_eq_false_iff_not]
    omega
  have hrest : 0 < (addStep c w p true).2.2.2.length := by
    rw [addStep_rest, hfrag, List.drop_zero]
    exact hp
  have hemit : (addStep c w p true).1.isOk = true := by
    by_contra hne
    have hstop : ¬ ((addStep c w p true).1.isOk = true ∧
        0 < (addStep c w p true).2.2.2.length) := fun hx => hne hx.1
    rw [AddRecord_def, addLoop_stop c w p true hstop] at hok
    rw [hok] at hne
    exact hne rfl
  have hemit2 : (addStep c w p true).1 = Status.ok := by
    cases he : (addStep c w p true).1 with
    | ok => rfl
    | ioError e =>
      rw [he] at hemit
      exact absurd hemit (by simp [Status.isOk])
  have hpad : (afterTrailer w).2 = ([] : List Event) := by
    rw [hat]
  have hso : (afterTrailer w).1.dest.contents.length = w.dest.contents.length := by
    rw [hat]
  have hrest2 : (addStep c w p true).2.2.2 = p := by
    rw [addStep_rest, hfrag, List.drop_zero]
  rw [AddRecord_def, addLoop_continue c w p true ⟨hemit, hrest⟩] at hok ⊢
  refine ⟨(addLoop c (addStep c w p true).2.1
    (addStep c w p true).2.2.2 false).2.2, ?_, ?_⟩
  · rw [addStep_trace, hdec, hfrag, List.take_zero, hbos, hso, hemit2, hpad,
      List.nil_append]
    rfl
  · have hj := (addLoop_join c (addStep c w p true).2.1
      (addStep c w p true).2.2.2 false).1 hok
    exact hj.trans hrest2

theorem addRecord_header_only_first_witness :
    ∃ rest, (AddRecord demoCrc (Writer.mkResume demoCrc emptyFile 32761) [9]).2.2 =
      Event.record (kBlockSize - kHeaderSize)
        (Writer.mkResume demoCrc emptyFile 32761).dest.contents.length kFirstType []
        Status.ok :: rest ∧
      (recPayloads rest).flatten = [9] :=
  addRecord_header_only_first demoCrc (Writer.mkResume demoCrc emptyFile 32761) [9]
    (by decide) (by decide)
    ((addLoop_schedule_nil demoCrc (Writer.mkResume demoCrc emptyFile 32761)
      [9] true rfl).1)

end LogWriter
